import Mathlib

/-!
A verification development for the `TTSCacheService` TypeScript class
(file `TTSCacheService.ts`).  The service is a process-wide singleton made
of static fields; we embed that mutable static state as an explicit
`ServiceState` record and every method as a function on it.  JavaScript
`Map`s are embedded as association lists with JS `Map` semantics
(`set` updates in place keeping insertion order, otherwise appends;
`get` returns the first binding; `delete` removes the key).  JS numbers
holding byte sizes are embedded as `Int`; timestamps (`Date.now()`) are
`Nat` values passed in explicitly.  Generated artifacts are embedded as
`String`s; a `null` result is `Option.none`.
-/

namespace TTSCache

/-- Status of a cache entry: the source's string union
`'pending' | 'completed' | 'error'`. -/
inductive Status where
  | pending
  | completed
  | error
deriving DecidableEq, Repr

/-- One cache slot, embedding the source's `CacheItem`.  The `promise`
field of the source always holds the in-flight handle for the item's own
key, so it carries no extra information in the embedding: awaiting it is
modelled by the settlement semantics below, keyed by the cache key.
`result` is present iff the underlying call resolved to a non-null value
(the source tests `item.result` for truthiness; results are stored only
when non-null). -/
structure CacheItem where
  result : Option String
  timestamp : Nat
  size : Int
  status : Status
deriving DecidableEq, Repr

/-- Per-session generation defaults, the source's `sessionSettings` map
values `{ service, language, voice }`. -/
structure SessionSettings where
  service : String
  language : String
  voice : String
deriving DecidableEq, Repr

/-- `Map.get`: first binding of the key, if any. -/
def mapGet {β : Type} : List (String × β) → String → Option β
  | [], _ => none
  | (k', v) :: t, k => if k' = k then some v else mapGet t k

/-- `Map.set`: update the first binding in place (JS `Map.set` keeps the
original insertion position), otherwise append. -/
def mapSet {β : Type} : List (String × β) → String → β → List (String × β)
  | [], k, v => [(k, v)]
  | (k', v') :: t, k, v =>
      if k' = k then (k, v) :: t else (k', v') :: mapSet t k v

/-- `Map.delete`: remove the key's bindings. -/
def mapDelete {β : Type} (m : List (String × β)) (k : String) : List (String × β) :=
  m.filter (fun p => p.1 ≠ k)

/-- `Map.has`. -/
def mapHas {β : Type} (m : List (String × β)) (k : String) : Prop :=
  (mapGet m k).isSome = true

instance {β : Type} (m : List (String × β)) (k : String) : Decidable (mapHas m k) := by
  unfold mapHas; infer_instance

/-- The whole static state of the `TTSCacheService` class.
`configured` embeds the source's `initialized` flag and `hasInstance`
the nullable `instance` field (the instance object itself carries no
data, its constructor being private and empty).  `ttsFnId` stands for
the stored generation-function reference `ttsFn`: the embedding treats
the function as an opaque handle, its behaviour being supplied to each
operation as an explicit `GenOutcome` oracle. -/
structure ServiceState where
  sessionSettings : List (String × SessionSettings)
  hasInstance : Bool
  configured : Bool
  ttsFnId : Nat
  timeoutMs : Nat
  maxSize : Int
  maxItems : Nat
  cache : List (String × CacheItem)
  currentSize : Int
  sessionQueues : List (String × List String)
  pendingPromises : List String
deriving DecidableEq, Repr

/-- The class field initializers: empty maps, `currentSize = 0`,
default limits `10 * 1024 * 1024` bytes / `100` items / `5000` ms,
no instance, not configured. -/
def freshState : ServiceState :=
  { sessionSettings := []
    hasInstance := false
    configured := false
    ttsFnId := 0
    timeoutMs := 5000
    maxSize := 10 * 1024 * 1024
    maxItems := 100
    cache := []
    currentSize := 0
    sessionQueues := []
    pendingPromises := [] }

/-- `generateKey(service, language, voice, text)`:
the template literal `service::language::voice::text`. -/
def generateKey (service language voice text : String) : String :=
  service ++ "::" ++ language ++ "::" ++ voice ++ "::" ++ text

/-- `estimateSize(obj)`: the length of the serialized artifact.
Artifacts are embedded as strings, so serialization cannot throw and the
fallback branch (`return 1000`) is unreachable in the embedding. -/
def estimateSize (obj : String) : Int :=
  (obj.length : Int)

/-- Keys of the cache map, in insertion order. -/
def cacheKeys (m : List (String × CacheItem)) : List String :=
  m.map Prod.fst

/-- Sum of the `size` fields over all cache entries. -/
def cacheSizeSum (m : List (String × CacheItem)) : Int :=
  (m.map (fun p => p.2.size)).sum

/-- The eviction trigger of `enforceCacheLimits`:
`cache.size > maxItems || currentSize > maxSize`. -/
def overLimits (s : ServiceState) : Prop :=
  s.cache.length > s.maxItems ∨ s.currentSize > s.maxSize

instance (s : ServiceState) : Decidable (overLimits s) := by
  unfold overLimits; infer_instance

/-- Insert an entry into a list sorted ascending by `timestamp`,
before the first strictly newer entry (stable, as JS `Array.sort`). -/
def insertByTs (x : String × CacheItem) :
    List (String × CacheItem) → List (String × CacheItem)
  | [] => [x]
  | y :: ys =>
      if y.2.timestamp < x.2.timestamp then y :: insertByTs x ys
      else x :: y :: ys

/-- `entries.sort((a, b) => a[1].timestamp - b[1].timestamp)`:
stable sort of the cache snapshot, oldest first. -/
def sortByTs : List (String × CacheItem) → List (String × CacheItem)
  | [] => []
  | x :: xs => insertByTs x (sortByTs xs)

/-- One eviction of the loop body of `enforceCacheLimits`: delete the
key from the cache, subtract its size, drop its pending-promise handle,
and splice its first occurrence out of every session queue. -/
def evictStep (s : ServiceState) (k : String) (it : CacheItem) : ServiceState :=
  { s with
      cache := mapDelete s.cache k
      currentSize := s.currentSize - it.size
      pendingPromises := s.pendingPromises.filter (fun k2 => k2 ≠ k)
      sessionQueues := s.sessionQueues.map (fun p => (p.1, p.2.erase k)) }

/-- The `while` loop of `enforceCacheLimits` over the sorted snapshot:
stop when the snapshot is exhausted or both limits hold; skip `pending`
entries; evict everything else. -/
def evictLoop : List (String × CacheItem) → ServiceState → ServiceState
  | [], s => s
  | (k, it) :: rest, s =>
      if overLimits s then
        if it.status = Status.pending then evictLoop rest s
        else evictLoop rest (evictStep s k it)
      else s

/-- `enforceCacheLimits()`: when a limit is exceeded, walk the snapshot
of entries sorted ascending by timestamp and evict. -/
def enforceCacheLimits (s : ServiceState) : ServiceState :=
  if overLimits s then evictLoop (sortByTs s.cache) s else s

/-- The mutation prefix of `setCacheItem`: subtract the replaced entry's
size when the key is present, store the entry, add its size. -/
def putRaw (s : ServiceState) (k : String) (item : CacheItem) : ServiceState :=
  let s1 :=
    match mapGet s.cache k with
    | some old => { s with currentSize := s.currentSize - old.size }
    | none => s
  { s1 with
      cache := mapSet s1.cache k item
      currentSize := s1.currentSize + item.size }

/-- `setCacheItem(key, item)`: store and then enforce the limits. -/
def setCacheItem (s : ServiceState) (k : String) (item : CacheItem) : ServiceState :=
  enforceCacheLimits (putRaw s k item)

/-- The source's `initialize(ttsServiceFn, maxCacheSize, maxCacheItems,
requestTimeoutMs)` (named `configure` here, as in the design spec):
replaces the configuration fields, marks the service configured, and
creates the singleton instance if absent. -/
def configure (s : ServiceState) (fnId : Nat) (maxCacheSize : Int)
    (maxCacheItems : Nat) (requestTimeoutMs : Nat) : ServiceState :=
  { s with
      ttsFnId := fnId
      timeoutMs := requestTimeoutMs
      maxSize := maxCacheSize
      maxItems := maxCacheItems
      configured := true
      hasInstance := if !s.hasInstance then true else s.hasInstance }

/-- The source's `uninitialize()` (named `reset` here, as in the design
spec): drops the instance, clears the configured flag, the cache, the
aggregate size, the session queues, the session settings, and the
pending-promise handles.  The configuration limits are class fields and
keep their current values. -/
def reset (s : ServiceState) : ServiceState :=
  { s with
      hasInstance := false
      configured := false
      cache := []
      currentSize := 0
      sessionQueues := []
      sessionSettings := []
      pendingPromises := [] }

/-- The record returned by `getCacheStats()`. -/
structure CacheStats where
  currentItems : Nat
  maxItems : Nat
  currentSize : Int
  maxSize : Int
deriving DecidableEq, Repr

/-- `getCacheStats()`: a read-only snapshot.  The second component
counts `console.warn` calls on the executed path — the source has no
configuration check and no warning here. -/
def getCacheStats (s : ServiceState) : CacheStats × Nat :=
  (⟨s.cache.length, s.maxItems, s.currentSize, s.maxSize⟩, 0)

/-- `hasCompletedItem(service, language, voice, text)`: warn and return
`false` when unconfigured; else true iff the entry exists, is
`completed`, and holds a result. -/
def hasCompletedItem (s : ServiceState)
    (service language voice text : String) : Bool × Nat :=
  if !s.configured then (false, 1)
  else
    match mapGet s.cache (generateKey service language voice text) with
    | some item => (item.status == Status.completed && item.result.isSome, 0)
    | none => (false, 0)

/-- `hasPending(service, language, voice, text)`: warn and return
`false` when unconfigured; else true iff the entry exists and is
`pending`. -/
def hasPending (s : ServiceState)
    (service language voice text : String) : Bool × Nat :=
  if !s.configured then (false, 1)
  else
    match mapGet s.cache (generateKey service language voice text) with
    | some item => (item.status == Status.pending, 0)
    | none => (false, 0)

/-- `setSessionSettings(sessionId, service, language, voice)`: warn and
no-op when unconfigured; else record the defaults (latest wins). -/
def setSessionSettings (s : ServiceState)
    (sessionId service language voice : String) : ServiceState × Nat :=
  if !s.configured then (s, 1)
  else
    ({ s with
        sessionSettings :=
          mapSet s.sessionSettings sessionId ⟨service, language, voice⟩ }, 0)

/-- The `Pending` entry stored by `preloadWithSettings` before the
generation call settles. -/
def pendingEntry (now : Nat) : CacheItem :=
  ⟨none, now, 0, Status.pending⟩

/-- `pendingPromises.set(key, promise)` viewed on the key set. -/
def pushPending (l : List String) (k : String) : List String :=
  if l.contains k then l else l ++ [k]

/-- Ensure the session has a queue and push the key onto it
(the source's push is unconditional). -/
def enqueueSession (qs : List (String × List String))
    (sid k : String) : List (String × List String) :=
  let qs1 := if (mapGet qs sid).isSome then qs else mapSet qs sid []
  mapSet qs1 sid (((mapGet qs1 sid).getD []) ++ [k])

/-- `preloadWithSettings(service, language, voice, text, sessionId)`:
no-op when the key is already cached in any status; else start the
generation call (the second component counts `ttsFn` invocations),
retain its handle, store a `Pending` entry, and enqueue the key on the
session queue.  The asynchronous settlement of the started call is the
separate step `applySettle`. -/
def preloadWithSettings (s : ServiceState)
    (service language voice text sessionId : String) (now : Nat) :
    ServiceState × Nat :=
  let key := generateKey service language voice text
  if (mapGet s.cache key).isSome then (s, 0)
  else
    let s1 := { s with pendingPromises := pushPending s.pendingPromises key }
    let s2 := setCacheItem s1 key (pendingEntry now)
    let s3 := { s2 with sessionQueues := enqueueSession s2.sessionQueues sessionId key }
    (s3, 1)

/-- `preloadTTS(text, sessionId)`: warn and no-op when unconfigured or
when the session has no recorded settings; else preload with the
session's settings.  Returns (state, warn count, `ttsFn` call count). -/
def preloadTTS (s : ServiceState) (text sessionId : String) (now : Nat) :
    ServiceState × Nat × Nat :=
  if !s.configured then (s, 1, 0)
  else
    match mapGet s.sessionSettings sessionId with
    | none => (s, 1, 0)
    | some st =>
        let r := preloadWithSettings s st.service st.language st.voice text sessionId now
        (r.1, 0, r.2)

/-- How one generation call settles: resolves to an artifact, resolves
to `null`, rejects, or outlasts the configured timeout. -/
inductive GenOutcome where
  | success (artifact : String)
  | nullResult
  | reject
  | timeout
deriving DecidableEq, Repr

/-- The three failing ways a generation call can settle. -/
def genFails (out : GenOutcome) : Prop :=
  out = GenOutcome.nullResult ∨ out = GenOutcome.reject ∨ out = GenOutcome.timeout

instance (out : GenOutcome) : Decidable (genFails out) := by
  unfold genFails; infer_instance

/-- `withTimeout(promise, timeout)`: the wrapping promise only ever
resolves — with the result on settlement in time, with `null` on
rejection or timeout.  It never rejects, which is why every `await` of
it in the source cannot throw. -/
def withTimeout : GenOutcome → Option String
  | GenOutcome.success a => some a
  | GenOutcome.nullResult => none
  | GenOutcome.reject => none
  | GenOutcome.timeout => none

/-- The terminal entry the preload continuation stores when the wrapped
call settles: `completed` with measured size on a non-null result,
`error` with size `0` otherwise (both the `.then` null-branch and the
`.catch` branch build the same entry). -/
def settleItem (out : GenOutcome) (now : Nat) : CacheItem :=
  match withTimeout out with
  | some a => ⟨some a, now, estimateSize a, Status.completed⟩
  | none => ⟨none, now, 0, Status.error⟩

/-- The settlement continuation attached by `preloadWithSettings`:
store the terminal entry for the key. -/
def applySettle (s : ServiceState) (key : String) (out : GenOutcome)
    (now : Nat) : ServiceState :=
  setCacheItem s key (settleItem out now)

/-- Result of the synchronous prefix of `requestTTS` (everything before
`await waitForPrecedingItems`): the updated state, whether the call
returned `null` early for being unconfigured, the `console.warn` count,
and the `ttsFn` invocation count. -/
structure ReqEntry where
  state : ServiceState
  earlyNull : Bool
  warns : Nat
  calls : Nat
deriving DecidableEq, Repr

/-- The synchronous prefix of `requestTTS(service, language, voice,
text, sessionId)`: unconfigured guard, session-settings update, queue
creation, and the preload of keys not yet in the session queue. -/
def requestTTSEntry (s : ServiceState)
    (service language voice text sessionId : String) (now : Nat) : ReqEntry :=
  if !s.configured then ⟨s, true, 1, 0⟩
  else
    let s1 := (setSessionSettings s sessionId service language voice).1
    let key := generateKey service language voice text
    let s2 :=
      if (mapGet s1.sessionQueues sessionId).isSome then s1
      else { s1 with sessionQueues := mapSet s1.sessionQueues sessionId [] }
    let queue := (mapGet s2.sessionQueues sessionId).getD []
    if queue.contains key then ⟨s2, false, 0, 0⟩
    else
      let r := preloadWithSettings s2 service language voice text sessionId now
      ⟨r.1, false, 0, r.2⟩

/-- Result of the resolution phase of `requestTTS`. -/
structure ReqResolve where
  state : ServiceState
  result : Option String
  calls : Nat
deriving DecidableEq, Repr

/-- The resolution phase of `requestTTS`, run after the barrier: return
the cached result of a completed entry; await the entry's retained
promise otherwise (`promiseValue` is the value that promise settles
with); and when the key is absent from the cache, make a direct
generation call under `withTimeout` (`out` is its outcome), caching the
outcome only when it is non-null.  Every branch returns a value: the
`try/catch` wrappers in the source are dead because `withTimeout` and
the preload chain never reject. -/
def requestTTSResolve (s : ServiceState) (key : String)
    (promiseValue : Option String) (out : GenOutcome) (now : Nat) : ReqResolve :=
  match mapGet s.cache key with
  | some item =>
      if item.status == Status.completed && item.result.isSome then
        ⟨s, item.result, 0⟩
      else
        ⟨s, promiseValue, 0⟩
  | none =>
      match withTimeout out with
      | some a =>
          ⟨setCacheItem s key ⟨some a, now, estimateSize a, Status.completed⟩, some a, 1⟩
      | none => ⟨s, none, 1⟩

/-- `queue.slice(0, queue.indexOf(currentKey))` with the
`currentIndex <= 0` early return: the keys preceding `k` in the
session queue, empty when `k` is absent or first. -/
def precedingOf (queue : List String) (k : String) : List String :=
  if queue.contains k then queue.takeWhile (fun x => x != k) else []

/-- The promises `waitForPrecedingItems(sessionId, key)` awaits: one per
preceding key that still has a cache entry (each awaited with failures
suppressed). -/
def waitForPreceding (s : ServiceState) (sessionId key : String) : List String :=
  (precedingOf ((mapGet s.sessionQueues sessionId).getD []) key).filter
    (fun k2 => (mapGet s.cache k2).isSome)

/-!
Event-order semantics for the ordering claims: an execution fixes a
settlement order `order : List String` of the in-flight generation
promises; the promise for key `k` settles at position `settlePos order
k`, at which instant its continuation (`applySettle`) has stored the
terminal entry for `k`.  `Promise.all` completes at the maximum
position of its arguments, so the barrier for a request completes at
`barrierPos`, and the request itself resolves no earlier than that —
and no earlier than its own promise when its entry is still pending.
-/

/-- Position of a key in the settlement order (settling after every
listed promise when absent). -/
def settlePos : List String → String → Nat
  | [], _ => 0
  | a :: rest, k => if a = k then 0 else settlePos rest k + 1

/-- Maximum of a list of positions (`Promise.all`). -/
def natListMax : List Nat → Nat
  | [] => 0
  | a :: rest => max a (natListMax rest)

/-- The position at which `waitForPrecedingItems(sessionId, key)`
completes. -/
def barrierPos (order : List String) (s : ServiceState)
    (sessionId key : String) : Nat :=
  natListMax ((waitForPreceding s sessionId key).map (settlePos order))

/-- The earliest position at which `requestTTS` for `key` on
`sessionId` can resolve: after its barrier, and after its own entry's
promise when that entry is pending. -/
def requestResolvePos (order : List String) (s : ServiceState)
    (sessionId key : String) : Nat :=
  match mapGet s.cache key with
  | some item =>
      if item.status == Status.completed && item.result.isSome then
        barrierPos order s sessionId key
      else
        max (barrierPos order s sessionId key) (settlePos order key)
  | none => barrierPos order s sessionId key

/-- Aggregate-size invariant: `currentSize` is the sum of the stored
entries' sizes. -/
def SizeInv (s : ServiceState) : Prop :=
  s.currentSize = cacheSizeSum s.cache

/-- Key uniqueness: every key present in the cache has exactly one
entry. -/
def KeysNodup (s : ServiceState) : Prop :=
  (cacheKeys s.cache).Nodup

/-- States reachable through the public surface: the fresh class state,
configuration, reset, the session/preload/request operations, and the
asynchronous settlement continuations of started generation calls. -/
inductive Reach : ServiceState → Prop where
  | base : Reach freshState
  | configR (fnId : Nat) (mx : Int) (mi tm : Nat) {s : ServiceState} :
      Reach s → Reach (configure s fnId mx mi tm)
  | resetR {s : ServiceState} : Reach s → Reach (reset s)
  | settingsR (sid svc lang voice : String) {s : ServiceState} :
      Reach s → Reach (setSessionSettings s sid svc lang voice).1
  | preloadR (text sid : String) (now : Nat) {s : ServiceState} :
      Reach s → Reach (preloadTTS s text sid now).1
  | reqEntryR (svc lang voice text sid : String) (now : Nat) {s : ServiceState} :
      Reach s → Reach (requestTTSEntry s svc lang voice text sid now).state
  | settleR (key : String) (out : GenOutcome) (now : Nat) {s : ServiceState} :
      Reach s → Reach (applySettle s key out now)
  | reqResolveR (key : String) (pv : Option String) (out : GenOutcome)
      (now : Nat) {s : ServiceState} :
      Reach s → Reach (requestTTSResolve s key pv out now).state

/-- Each session queue lists each fingerprint at most once. -/
def QueuesNodup (s : ServiceState) : Prop :=
  ∀ p ∈ s.sessionQueues, (p.2 : List String).Nodup

instance (s : ServiceState) : Decidable (QueuesNodup s) := by
  unfold QueuesNodup; infer_instance

instance (s : ServiceState) : Decidable (KeysNodup s) := by
  unfold KeysNodup; infer_instance

/-- The eviction loop's relation between its snapshot and the live
cache: every snapshot entry is still the cache's binding for its key,
and the snapshot mentions each key once. -/
def SnapOk (l : List (String × CacheItem)) (s : ServiceState) : Prop :=
  (∀ p ∈ l, mapGet s.cache p.1 = some p.2) ∧ (l.map Prod.fst).Nodup

/-- The snapshot also covers every non-pending entry of the cache
(nothing evictable hides outside the remaining snapshot). -/
def SnapCovers (l : List (String × CacheItem)) (s : ServiceState) : Prop :=
  ∀ k it, mapGet s.cache k = some it → it.status ≠ Status.pending → (k, it) ∈ l

/-- The concrete cross-session scenario for the ordering claims: `A`
enqueued on session `s1`, `B` on session `s2`, both pending, `B`'s
generation settling first. -/
def crossSessionState : ServiceState :=
  { (configure freshState 1 1000 100 100) with
      cache := [("A", pendingEntry 0), ("B", pendingEntry 1)]
      currentSize := 0
      sessionQueues := [("s1", ["A"]), ("s2", ["B"])] }

/-- The concrete same-session scenario: `A` enqueued before `B` on
session `s1`, both pending. -/
def sameSessionState : ServiceState :=
  { (configure freshState 1 1000 100 100) with
      cache := [("A", pendingEntry 0), ("B", pendingEntry 1)]
      currentSize := 0
      sessionQueues := [("s1", ["A", "B"])] }

/-- A configured state whose session queue holds a key with no cache
entry, reaching the direct-call fallback of `requestTTS`. -/
def orphanQueueState : ServiceState :=
  { (configure freshState 1 1000 100 100) with
      sessionQueues := [("s", [generateKey "a" "l" "v" "t"])] }

/-- A configured state holding a pending entry for a concrete
fingerprint, within both limits. -/
def cachedKeyState : ServiceState :=
  { (configure freshState 1 1000 100 100) with
      cache := [(generateKey "a" "l" "v" "t", pendingEntry 0)]
      currentSize := 0
      sessionQueues := [("s", [generateKey "a" "l" "v" "t"])] }

/-- The state reached by configuring with `maxItems = 7` and then
resetting: unconfigured, yet its stats snapshot still shows the
configured maxima. -/
def staleStatsState : ServiceState :=
  reset (configure freshState 1 1000 7 2000)

section MapLemmas

variable {β : Type}

theorem mapGet_set_self (m : List (String × β)) (k : String) (v : β) :
    mapGet (mapSet m k v) k = some v := by
  induction m with
  | nil => simp [mapSet, mapGet]
  | cons p t ih =>
    obtain ⟨a, b⟩ := p
    by_cases h : a = k
    · simp [mapSet, h, mapGet]
    · simp [mapSet, h, mapGet, ih]

theorem mapGet_set_ne (m : List (String × β)) (k k' : String) (v : β)
    (h : k ≠ k') : mapGet (mapSet m k v) k' = mapGet m k' := by
  induction m with
  | nil => simp [mapSet, mapGet, h]
  | cons p t ih =>
    obtain ⟨a, b⟩ := p
    by_cases hp : a = k
    · simp [mapSet, hp, mapGet, h, Ne.symm h]
    · by_cases hp' : a = k'
      · simp [mapSet, hp, mapGet, hp', Ne.symm h]
      · simp [mapSet, hp, mapGet, hp', ih]

theorem mapGet_delete_self (m : List (String × β)) (k : String) :
    mapGet (mapDelete m k) k = none := by
  induction m with
  | nil => simp [mapDelete, mapGet]
  | cons p t ih =>
    obtain ⟨a, b⟩ := p
    by_cases h : a = k
    · simpa [mapDelete, List.filter_cons, h] using ih
    · simpa [mapDelete, List.filter_cons, h, mapGet] using ih

theorem mapGet_delete_ne (m : List (String × β)) (k k' : String)
    (h : k ≠ k') : mapGet (mapDelete m k) k' = mapGet m k' := by
  induction m with
  | nil => simp [mapDelete, mapGet]
  | cons p t ih =>
    obtain ⟨a, b⟩ := p
    by_cases hp : a = k
    · simpa [mapDelete, List.filter_cons, hp, mapGet, h] using ih
    · by_cases hp' : a = k'
      · simp [mapDelete, List.filter_cons, hp, mapGet, hp', Ne.symm h]
      · simpa [mapDelete, List.filter_cons, hp, mapGet, hp'] using ih

theorem mapGet_mem (m : List (String × β)) (k : String) (v : β)
    (h : mapGet m k = some v) : (k, v) ∈ m := by
  induction m with
  | nil => simp [mapGet] at h
  | cons p t ih =>
    obtain ⟨a, b⟩ := p
    by_cases hp : a = k
    · simp only [mapGet, if_pos hp] at h
      cases h
      exact List.mem_cons.mpr (Or.inl (by rw [hp]))
    · simp only [mapGet, if_neg hp] at h
      exact List.mem_cons_of_mem _ (ih h)

theorem mem_mapGet (m : List (String × β)) (k : String) (v : β)
    (hnd : (m.map Prod.fst).Nodup) (h : (k, v) ∈ m) :
    mapGet m k = some v := by
  induction m with
  | nil => simp at h
  | cons p t ih =>
    obtain ⟨a, b⟩ := p
    rcases List.mem_cons.mp h with h | h
    · injection h with h1 h2
      subst h1
      subst h2
      simp [mapGet]
    · have hk : k ∈ t.map Prod.fst :=
        List.mem_map.mpr ⟨(k, v), h, rfl⟩
      have hp : a ≠ k := by
        intro he
        exact (List.nodup_cons.mp hnd).1 (by simpa [he] using hk)
      simp only [mapGet, if_neg hp]
      exact ih (List.nodup_cons.mp hnd).2 h

theorem mapGet_none_iff (m : List (String × β)) (k : String) :
    mapGet m k = none ↔ k ∉ m.map Prod.fst := by
  induction m with
  | nil => simp [mapGet]
  | cons p t ih =>
    obtain ⟨a, b⟩ := p
    by_cases h : a = k
    · simp [mapGet, h]
    · simp [mapGet, h, ih, Ne.symm h]

/-- `mapSet` on a present key keeps the key list; on an absent key it
appends the key. -/
theorem keys_mapSet (m : List (String × β)) (k : String) (v : β) :
    (mapSet m k v).map Prod.fst =
      if k ∈ m.map Prod.fst then m.map Prod.fst
      else m.map Prod.fst ++ [k] := by
  induction m with
  | nil => simp [mapSet]
  | cons p t ih =>
    obtain ⟨a, b⟩ := p
    by_cases h : a = k
    · simp [mapSet, h]
    · by_cases hm : k ∈ t.map Prod.fst
      · simp [mapSet, h, ih, hm, Ne.symm h]
      · simp [mapSet, h, ih, hm, Ne.symm h]

theorem keys_nodup_set (m : List (String × β)) (k : String) (v : β)
    (h : (m.map Prod.fst).Nodup) :
    ((mapSet m k v).map Prod.fst).Nodup := by
  rw [keys_mapSet]
  by_cases hm : k ∈ m.map Prod.fst
  · simpa [hm] using h
  · simp only [hm, ite_false]
    refine List.Nodup.append h (List.nodup_singleton k) ?_
    intro x hx hxk
    rw [List.mem_singleton] at hxk
    exact hm (hxk ▸ hx)

theorem keys_nodup_delete (m : List (String × β)) (k : String)
    (h : (m.map Prod.fst).Nodup) :
    ((mapDelete m k).map Prod.fst).Nodup :=
  ((List.filter_sublist m).map Prod.fst).nodup h

/-- Replacing a present key keeps the number of entries. -/
theorem length_mapSet_present (m : List (String × β)) (k : String) (v : β)
    (h : (mapGet m k).isSome = true) :
    (mapSet m k v).length = m.length := by
  induction m with
  | nil => simp [mapGet] at h
  | cons p t ih =>
    obtain ⟨a, b⟩ := p
    by_cases hp : a = k
    · simp [mapSet, hp]
    · simp only [mapGet, if_neg hp] at h
      simp [mapSet, hp, ih h]

end MapLemmas

section SizeLemmas

theorem mapDelete_cons {β : Type} (a : String) (b : β)
    (t : List (String × β)) (k : String) :
    mapDelete ((a, b) :: t) k =
      if a = k then mapDelete t k else (a, b) :: mapDelete t k := by
  by_cases h : a = k <;> simp [mapDelete, List.filter_cons, h]

theorem mapDelete_of_not_mem {β : Type} (m : List (String × β)) (k : String)
    (h : k ∉ m.map Prod.fst) : mapDelete m k = m := by
  induction m with
  | nil => rfl
  | cons p t ih =>
    obtain ⟨a, b⟩ := p
    simp only [List.map_cons, List.mem_cons, not_or] at h
    rw [mapDelete_cons, if_neg (fun he => h.1 he.symm), ih h.2]

theorem cacheSizeSum_cons (a : String) (b : CacheItem)
    (t : List (String × CacheItem)) :
    cacheSizeSum ((a, b) :: t) = b.size + cacheSizeSum t := by
  simp [cacheSizeSum]

theorem cacheSizeSum_set_none (m : List (String × CacheItem)) (k : String)
    (v : CacheItem) (h : mapGet m k = none) :
    cacheSizeSum (mapSet m k v) = cacheSizeSum m + v.size := by
  induction m with
  | nil => simp [mapSet, cacheSizeSum]
  | cons p t ih =>
    obtain ⟨a, b⟩ := p
    by_cases hp : a = k
    · simp [mapGet, hp] at h
    · simp only [mapGet, if_neg hp] at h
      simp only [mapSet, if_neg hp]
      rw [cacheSizeSum_cons, cacheSizeSum_cons, ih h]
      ring

theorem cacheSizeSum_set_some (m : List (String × CacheItem)) (k : String)
    (v old : CacheItem) (h : mapGet m k = some old) :
    cacheSizeSum (mapSet m k v) = cacheSizeSum m - old.size + v.size := by
  induction m with
  | nil => simp [mapGet] at h
  | cons p t ih =>
    obtain ⟨a, b⟩ := p
    by_cases hp : a = k
    · simp only [mapGet, if_pos hp] at h
      cases h
      simp only [mapSet, if_pos hp]
      rw [cacheSizeSum_cons, cacheSizeSum_cons]
      ring
    · simp only [mapGet, if_neg hp] at h
      simp only [mapSet, if_neg hp]
      rw [cacheSizeSum_cons, cacheSizeSum_cons, ih h]
      ring

theorem cacheSizeSum_delete (m : List (String × CacheItem)) (k : String)
    (old : CacheItem) (hnd : (m.map Prod.fst).Nodup)
    (h : mapGet m k = some old) :
    cacheSizeSum (mapDelete m k) = cacheSizeSum m - old.size := by
  induction m with
  | nil => simp [mapGet] at h
  | cons p t ih =>
    obtain ⟨a, b⟩ := p
    obtain ⟨hp1, hp2⟩ := List.nodup_cons.mp hnd
    by_cases hp : a = k
    · simp only [mapGet, if_pos hp] at h
      cases h
      rw [mapDelete_cons, if_pos hp,
        mapDelete_of_not_mem t k (by simpa [hp] using hp1), cacheSizeSum_cons]
      ring
    · simp only [mapGet, if_neg hp] at h
      rw [mapDelete_cons, if_neg hp, cacheSizeSum_cons, cacheSizeSum_cons,
        ih hp2 h]
      ring

end SizeLemmas

section SortLemmas

theorem insertByTs_perm (x : String × CacheItem)
    (l : List (String × CacheItem)) : List.Perm (insertByTs x l) (x :: l) := by
  induction l with
  | nil => exact List.Perm.refl _
  | cons y ys ih =>
    by_cases h : y.2.timestamp < x.2.timestamp
    · simp only [insertByTs, if_pos h]
      exact List.Perm.trans (List.Perm.cons y ih) (List.Perm.swap x y ys)
    · simp only [insertByTs, if_neg h]
      exact List.Perm.refl _

theorem sortByTs_perm (l : List (String × CacheItem)) :
    List.Perm (sortByTs l) l := by
  induction l with
  | nil => exact List.Perm.refl _
  | cons x xs ih =>
    exact List.Perm.trans (insertByTs_perm x (sortByTs xs)) (List.Perm.cons x ih)

theorem mem_sortByTs (l : List (String × CacheItem)) (p : String × CacheItem) :
    p ∈ sortByTs l ↔ p ∈ l :=
  (sortByTs_perm l).mem_iff

theorem keys_nodup_sortByTs (l : List (String × CacheItem))
    (h : (l.map Prod.fst).Nodup) : ((sortByTs l).map Prod.fst).Nodup :=
  ((sortByTs_perm l).map Prod.fst).nodup_iff.mpr h

end SortLemmas

section EvictLemmas

theorem snapOk_tail {p : String × CacheItem} {rest : List (String × CacheItem)}
    {s : ServiceState} (h : SnapOk (p :: rest) s) : SnapOk rest s :=
  ⟨fun q hq => h.1 q (List.mem_cons_of_mem _ hq),
   (List.nodup_cons.mp h.2).2⟩

theorem snapOk_evictStep {k0 : String} {it0 : CacheItem}
    {rest : List (String × CacheItem)} {s : ServiceState}
    (h : SnapOk ((k0, it0) :: rest) s) : SnapOk rest (evictStep s k0 it0) := by
  obtain ⟨hall, hnd⟩ := h
  obtain ⟨hk0, hrest⟩ := List.nodup_cons.mp hnd
  refine ⟨fun q hq => ?_, hrest⟩
  have hne : q.1 ≠ k0 := by
    intro he
    exact hk0 (List.mem_map.mpr ⟨q, hq, he⟩)
  show mapGet (mapDelete s.cache k0) q.1 = some q.2
  rw [mapGet_delete_ne _ _ _ (fun he => hne he.symm)]
  exact hall q (List.mem_cons_of_mem _ hq)

theorem evictLoop_get_pending (l : List (String × CacheItem))
    (s : ServiceState) (hsc : SnapOk l s) (k : String) (it : CacheItem)
    (hk : mapGet s.cache k = some it) (hp : it.status = Status.pending) :
    mapGet (evictLoop l s).cache k = some it := by
  induction l generalizing s with
  | nil => simpa [evictLoop] using hk
  | cons p rest ih =>
    obtain ⟨k0, it0⟩ := p
    by_cases hov : overLimits s
    · by_cases hst : it0.status = Status.pending
      · simp only [evictLoop, if_pos hov, if_pos hst]
        exact ih s (snapOk_tail hsc) hk
      · simp only [evictLoop, if_pos hov, if_neg hst]
        have hk0 : mapGet s.cache k0 = some it0 :=
          hsc.1 (k0, it0) (List.mem_cons_self _ _)
        have hne : k ≠ k0 := by
          intro he
          rw [he, hk0] at hk
          cases hk
          exact hst hp
        refine ih (evictStep s k0 it0) (snapOk_evictStep hsc) ?_
        show mapGet (mapDelete s.cache k0) k = some it
        rw [mapGet_delete_ne _ _ _ (fun he => hne he.symm)]
        exact hk
    · simpa [evictLoop, if_neg hov] using hk

theorem evictLoop_get_or_none (l : List (String × CacheItem))
    (s : ServiceState) (k : String) :
    mapGet (evictLoop l s).cache k = mapGet s.cache k ∨
      mapGet (evictLoop l s).cache k = none := by
  induction l generalizing s with
  | nil => left; rfl
  | cons p rest ih =>
    obtain ⟨k0, it0⟩ := p
    by_cases hov : overLimits s
    · by_cases hst : it0.status = Status.pending
      · simpa only [evictLoop, if_pos hov, if_pos hst] using ih s
      · simp only [evictLoop, if_pos hov, if_neg hst]
        rcases ih (evictStep s k0 it0) with h | h
        · by_cases hkk : k = k0
          · right
            rw [h]
            show mapGet (mapDelete s.cache k0) k = none
            rw [hkk]
            exact mapGet_delete_self _ _
          · left
            rw [h]
            exact mapGet_delete_ne _ _ _ (fun he => hkk he.symm)
        · right; exact h
    · left
      simp [evictLoop, if_neg hov]

theorem evictLoop_inv (l : List (String × CacheItem)) (s : ServiceState)
    (hsc : SnapOk l s) (hnd : KeysNodup s) (hsz : SizeInv s) :
    SizeInv (evictLoop l s) ∧ KeysNodup (evictLoop l s) := by
  induction l generalizing s with
  | nil => exact ⟨hsz, hnd⟩
  | cons p rest ih =>
    obtain ⟨k0, it0⟩ := p
    by_cases hov : overLimits s
    · by_cases hst : it0.status = Status.pending
      · simp only [evictLoop, if_pos hov, if_pos hst]
        exact ih s (snapOk_tail hsc) hnd hsz
      · simp only [evictLoop, if_pos hov, if_neg hst]
        have hk0 : mapGet s.cache k0 = some it0 :=
          hsc.1 (k0, it0) (List.mem_cons_self _ _)
        refine ih (evictStep s k0 it0) (snapOk_evictStep hsc) ?_ ?_
        · exact keys_nodup_delete _ _ hnd
        · show s.currentSize - it0.size = cacheSizeSum (mapDelete s.cache k0)
          rw [cacheSizeSum_delete _ _ _ hnd hk0, hsz]
    · simpa [evictLoop, if_neg hov] using ⟨hsz, hnd⟩

theorem evictLoop_final (l : List (String × CacheItem)) (s : ServiceState)
    (hsc : SnapOk l s) (hcov : SnapCovers l s) :
    ¬ overLimits (evictLoop l s) ∨
      ∀ k it, mapGet (evictLoop l s).cache k = some it →
        it.status = Status.pending := by
  induction l generalizing s with
  | nil =>
    by_cases hov : overLimits s
    · right
      intro k it hk
      by_contra hnp
      exact absurd (hcov k it hk hnp) (List.not_mem_nil _)
    · left
      simpa [evictLoop] using hov
  | cons p rest ih =>
    obtain ⟨k0, it0⟩ := p
    by_cases hov : overLimits s
    · by_cases hst : it0.status = Status.pending
      · simp only [evictLoop, if_pos hov, if_pos hst]
        refine ih s (snapOk_tail hsc) ?_
        intro k it hk hnp
        rcases List.mem_cons.mp (hcov k it hk hnp) with h | h
        · injection h with h1 h2
          exact absurd (by rw [h2]; exact hst) hnp
        · exact h
      · simp only [evictLoop, if_pos hov, if_neg hst]
        refine ih (evictStep s k0 it0) (snapOk_evictStep hsc) ?_
        intro k it hk hnp
        have hne : k ≠ k0 := by
          intro he
          rw [he] at hk
          have : mapGet (mapDelete s.cache k0) k0 = none := mapGet_delete_self _ _
          rw [show (evictStep s k0 it0).cache = mapDelete s.cache k0 from rfl] at hk
          rw [this] at hk
          cases hk
        have hk' : mapGet s.cache k = some it := by
          rw [show (evictStep s k0 it0).cache = mapDelete s.cache k0 from rfl] at hk
          rwa [mapGet_delete_ne _ _ _ (fun he => hne he.symm)] at hk
        rcases List.mem_cons.mp (hcov k it hk' hnp) with h | h
        · injection h with h1 h2
          exact absurd h1 hne
        · exact h
    · left
      simpa [evictLoop, if_neg hov] using hov

theorem snapOk_sort (s : ServiceState) (hnd : KeysNodup s) :
    SnapOk (sortByTs s.cache) s := by
  refine ⟨fun p hp => ?_, keys_nodup_sortByTs _ hnd⟩
  obtain ⟨a, b⟩ := p
  exact mem_mapGet _ _ _ hnd ((mem_sortByTs _ _).mp hp)

theorem snapCovers_sort (s : ServiceState) :
    SnapCovers (sortByTs s.cache) s := by
  intro k it hk _
  exact (mem_sortByTs _ _).mpr (mapGet_mem _ _ _ hk)

theorem enforce_noop (s : ServiceState) (h : ¬ overLimits s) :
    enforceCacheLimits s = s := if_neg h

theorem enforce_pending (s : ServiceState) (hnd : KeysNodup s)
    (k : String) (it : CacheItem) (hk : mapGet s.cache k = some it)
    (hp : it.status = Status.pending) :
    mapGet (enforceCacheLimits s).cache k = some it := by
  unfold enforceCacheLimits
  by_cases hov : overLimits s
  · rw [if_pos hov]
    exact evictLoop_get_pending _ _ (snapOk_sort s hnd) _ _ hk hp
  · rw [if_neg hov]
    exact hk

theorem enforce_get_or_none (s : ServiceState) (k : String) :
    mapGet (enforceCacheLimits s).cache k = mapGet s.cache k ∨
      mapGet (enforceCacheLimits s).cache k = none := by
  unfold enforceCacheLimits
  by_cases hov : overLimits s
  · rw [if_pos hov]
    exact evictLoop_get_or_none _ _ _
  · rw [if_neg hov]
    left
    rfl

theorem enforce_inv (s : ServiceState) (hnd : KeysNodup s) (hsz : SizeInv s) :
    SizeInv (enforceCacheLimits s) ∧ KeysNodup (enforceCacheLimits s) := by
  unfold enforceCacheLimits
  by_cases hov : overLimits s
  · rw [if_pos hov]
    exact evictLoop_inv _ _ (snapOk_sort s hnd) hnd hsz
  · rw [if_neg hov]
    exact ⟨hsz, hnd⟩

theorem enforce_final (s : ServiceState) (hnd : KeysNodup s) :
    ¬ overLimits (enforceCacheLimits s) ∨
      ∀ k it, mapGet (enforceCacheLimits s).cache k = some it →
        it.status = Status.pending := by
  unfold enforceCacheLimits
  by_cases hov : overLimits s
  · rw [if_pos hov]
    exact evictLoop_final _ _ (snapOk_sort s hnd) (snapCovers_sort s)
  · rw [if_neg hov]
    left
    exact hov

end EvictLemmas

section InvariantLemmas

theorem putRaw_inv (s : ServiceState) (k : String) (it : CacheItem)
    (hnd : KeysNodup s) (hsz : SizeInv s) :
    SizeInv (putRaw s k it) ∧ KeysNodup (putRaw s k it) := by
  cases hg : mapGet s.cache k with
  | none =>
    refine ⟨?_, ?_⟩
    · show (putRaw s k it).currentSize = cacheSizeSum (putRaw s k it).cache
      simp only [putRaw, hg]
      rw [cacheSizeSum_set_none _ _ _ hg, hsz]
    · show (cacheKeys (putRaw s k it).cache).Nodup
      simp only [putRaw, hg]
      exact keys_nodup_set _ _ _ hnd
  | some old =>
    refine ⟨?_, ?_⟩
    · show (putRaw s k it).currentSize = cacheSizeSum (putRaw s k it).cache
      simp only [putRaw, hg]
      rw [cacheSizeSum_set_some _ _ _ _ hg, hsz]
    · show (cacheKeys (putRaw s k it).cache).Nodup
      simp only [putRaw, hg]
      exact keys_nodup_set _ _ _ hnd

theorem setCacheItem_inv (s : ServiceState) (k : String) (it : CacheItem)
    (hnd : KeysNodup s) (hsz : SizeInv s) :
    SizeInv (setCacheItem s k it) ∧ KeysNodup (setCacheItem s k it) := by
  obtain ⟨h1, h2⟩ := putRaw_inv s k it hnd hsz
  exact enforce_inv (putRaw s k it) h2 h1

theorem preloadWithSettings_inv (s : ServiceState)
    (service language voice text sessionId : String) (now : Nat)
    (hnd : KeysNodup s) (hsz : SizeInv s) :
    SizeInv (preloadWithSettings s service language voice text sessionId now).1 ∧
      KeysNodup (preloadWithSettings s service language voice text sessionId now).1 := by
  unfold preloadWithSettings
  by_cases hg : (mapGet s.cache (generateKey service language voice text)).isSome = true
  · rw [if_pos hg]
    exact ⟨hsz, hnd⟩
  · rw [if_neg hg]
    exact setCacheItem_inv
      { s with pendingPromises :=
          pushPending s.pendingPromises (generateKey service language voice text) }
      (generateKey service language voice text) (pendingEntry now) hnd hsz

theorem setSessionSettings_inv (s : ServiceState)
    (sessionId service language voice : String)
    (hnd : KeysNodup s) (hsz : SizeInv s) :
    SizeInv (setSessionSettings s sessionId service language voice).1 ∧
      KeysNodup (setSessionSettings s sessionId service language voice).1 := by
  unfold setSessionSettings
  by_cases hc : (!s.configured) = true
  · rw [if_pos hc]
    exact ⟨hsz, hnd⟩
  · rw [if_neg hc]
    exact ⟨hsz, hnd⟩

theorem preloadTTS_inv (s : ServiceState) (text sessionId : String) (now : Nat)
    (hnd : KeysNodup s) (hsz : SizeInv s) :
    SizeInv (preloadTTS s text sessionId now).1 ∧
      KeysNodup (preloadTTS s text sessionId now).1 := by
  unfold preloadTTS
  by_cases hc : (!s.configured) = true
  · rw [if_pos hc]
    exact ⟨hsz, hnd⟩
  · rw [if_neg hc]
    cases hg : mapGet s.sessionSettings sessionId with
    | none => exact ⟨hsz, hnd⟩
    | some st =>
      exact preloadWithSettings_inv s st.service st.language st.voice
        text sessionId now hnd hsz

theorem requestTTSEntry_inv (s : ServiceState)
    (service language voice text sessionId : String) (now : Nat)
    (hnd : KeysNodup s) (hsz : SizeInv s) :
    SizeInv (requestTTSEntry s service language voice text sessionId now).state ∧
      KeysNodup (requestTTSEntry s service language voice text sessionId now).state := by
  unfold requestTTSEntry
  by_cases hc : (!s.configured) = true
  · rw [if_pos hc]
    exact ⟨hsz, hnd⟩
  · rw [if_neg hc]
    obtain ⟨h1, h2⟩ := setSessionSettings_inv s sessionId service language voice hnd hsz
    dsimp only
    by_cases hq : (mapGet (setSessionSettings s sessionId service language
        voice).1.sessionQueues sessionId).isSome = true
    · simp only [if_pos hq]
      split
      · exact ⟨h1, h2⟩
      · exact preloadWithSettings_inv _ service language voice text sessionId now h2 h1
    · simp only [if_neg hq]
      split
      · exact ⟨h1, h2⟩
      · exact preloadWithSettings_inv _ service language voice text sessionId now h2 h1

theorem applySettle_inv (s : ServiceState) (key : String) (out : GenOutcome)
    (now : Nat) (hnd : KeysNodup s) (hsz : SizeInv s) :
    SizeInv (applySettle s key out now) ∧ KeysNodup (applySettle s key out now) :=
  setCacheItem_inv s key (settleItem out now) hnd hsz

theorem requestTTSResolve_inv (s : ServiceState) (key : String)
    (pv : Option String) (out : GenOutcome) (now : Nat)
    (hnd : KeysNodup s) (hsz : SizeInv s) :
    SizeInv (requestTTSResolve s key pv out now).state ∧
      KeysNodup (requestTTSResolve s key pv out now).state := by
  unfold requestTTSResolve
  split
  · split
    · exact ⟨hsz, hnd⟩
    · exact ⟨hsz, hnd⟩
  · split
    · exact setCacheItem_inv s key _ hnd hsz
    · exact ⟨hsz, hnd⟩

end InvariantLemmas

section OrderLemmas

theorem le_natListMax {a : Nat} {l : List Nat} (h : a ∈ l) :
    a ≤ natListMax l := by
  induction l with
  | nil => cases h
  | cons b t ih =>
    rcases List.mem_cons.mp h with h | h
    · rw [h]
      exact Nat.le_max_left _ _
    · exact Nat.le_trans (ih h) (Nat.le_max_right _ _)

theorem settleItem_terminal (out : GenOutcome) (now : Nat) :
    (settleItem out now).status ≠ Status.pending := by
  cases out <;> simp [settleItem, withTimeout]

theorem settlePos_le_barrierPos (order : List String) (s : ServiceState)
    (sessionId A B : String)
    (hA : A ∈ precedingOf ((mapGet s.sessionQueues sessionId).getD []) B)
    (hAc : (mapGet s.cache A).isSome = true) :
    settlePos order A ≤ barrierPos order s sessionId B := by
  have hmem : A ∈ waitForPreceding s sessionId B :=
    List.mem_filter.mpr ⟨hA, hAc⟩
  exact le_natListMax (List.mem_map.mpr ⟨A, hmem, rfl⟩)

end OrderLemmas

/-- C1: within one session, if `A` precedes `B` in the session queue
(and `A` still has a cache entry, so the barrier awaits it), then the
earliest position at which `request(B)` can resolve is no earlier than
the settlement of `A` — at which instant `A`'s stored entry is terminal
(`settleItem` never stores `pending`) — for every settlement order,
including those where `B` settles first.  Across sessions no such bound
holds: in `crossSessionState`, `B` on session `s2` resolves strictly
before `A` (queued on `s1`) settles. -/
theorem claim_C1_session_order (order : List String) (s : ServiceState)
    (sessionId A B : String)
    (hA : A ∈ precedingOf ((mapGet s.sessionQueues sessionId).getD []) B)
    (hAc : (mapGet s.cache A).isSome = true) :
    settlePos order A ≤ requestResolvePos order s sessionId B ∧
    (∀ out now, (settleItem out now).status ≠ Status.pending) ∧
    requestResolvePos ["B", "A"] crossSessionState "s2" "B" <
      settlePos ["B", "A"] "A" := by
  refine ⟨?_, fun out now => settleItem_terminal out now, by decide⟩
  have hb := settlePos_le_barrierPos order s sessionId A B hA hAc
  unfold requestResolvePos
  split
  · split
    · exact hb
    · exact Nat.le_trans hb (Nat.le_max_left _ _)
  · exact hb

/-- Witness for C1 at `sameSessionState`: `A` precedes `B` on session
`s1` and has an entry, so `request(B)` resolves no earlier than `A`
settles even under the order where `B`'s generation finishes first. -/
theorem claim_C1_witness :
    "A" ∈ precedingOf ((mapGet sameSessionState.sessionQueues "s1").getD []) "B" ∧
    (mapGet sameSessionState.cache "A").isSome = true ∧
    (settlePos ["B", "A"] "A" ≤ requestResolvePos ["B", "A"] sameSessionState "s1" "B" ∧
      (∀ out now, (settleItem out now).status ≠ Status.pending) ∧
      requestResolvePos ["B", "A"] crossSessionState "s2" "B" <
        settlePos ["B", "A"] "A") :=
  ⟨by decide, by decide,
    claim_C1_session_order ["B", "A"] sameSessionState "s1" "A" "B"
      (by decide) (by decide)⟩

/-- C2: in every state reachable through the public operations (and the
settlement continuations of started calls), the aggregate `currentSize`
equals the sum of the `size` fields of the stored entries, and each key
has exactly one entry.  The put-path accounting (subtract the replaced
entry's size, subtract each evicted entry's size) is what maintains the
equality, via `setCacheItem` and `enforceCacheLimits`. -/
theorem claim_C2_size_invariant {s : ServiceState} (h : Reach s) :
    s.currentSize = cacheSizeSum s.cache ∧ (cacheKeys s.cache).Nodup := by
  induction h with
  | base => exact ⟨rfl, List.nodup_nil⟩
  | configR fnId mx mi tm h ih => exact ih
  | resetR h ih => exact ⟨rfl, List.nodup_nil⟩
  | settingsR sid svc lang voice h ih =>
    exact setSessionSettings_inv _ sid svc lang voice ih.2 ih.1
  | preloadR text sid now h ih =>
    exact preloadTTS_inv _ text sid now ih.2 ih.1
  | reqEntryR svc lang voice text sid now h ih =>
    exact requestTTSEntry_inv _ svc lang voice text sid now ih.2 ih.1
  | settleR key out now h ih =>
    exact applySettle_inv _ key out now ih.2 ih.1
  | reqResolveR key pv out now h ih =>
    exact requestTTSResolve_inv _ key pv out now ih.2 ih.1

/-- Witness for C2: a concrete reachable state (configure, record
session settings, preload one text) satisfies the aggregate-size
invariant. -/
theorem claim_C2_witness :
    Reach (preloadTTS (setSessionSettings (configure freshState 1 1000 3 2000)
        "s" "a" "l" "v").1 "hi" "s" 0).1 ∧
    ((preloadTTS (setSessionSettings (configure freshState 1 1000 3 2000)
        "s" "a" "l" "v").1 "hi" "s" 0).1.currentSize =
      cacheSizeSum (preloadTTS (setSessionSettings (configure freshState 1 1000 3 2000)
        "s" "a" "l" "v").1 "hi" "s" 0).1.cache ∧
     (cacheKeys (preloadTTS (setSessionSettings (configure freshState 1 1000 3 2000)
        "s" "a" "l" "v").1 "hi" "s" 0).1.cache).Nodup) :=
  have hr : Reach (preloadTTS (setSessionSettings (configure freshState 1 1000 3 2000)
      "s" "a" "l" "v").1 "hi" "s" 0).1 :=
    Reach.preloadR "hi" "s" 0
      (Reach.settingsR "s" "a" "l" "v"
        (Reach.configR 1 1000 3 2000 Reach.base))
  ⟨hr, claim_C2_size_invariant hr⟩

/-- C3: eviction enforcement (a) is the identity when neither limit is
exceeded (it only removes entries when count or size is over its
maximum); (b) never removes — indeed never touches — an entry whose
status is `pending`; (c) any entry it does remove was non-pending; (d)
it stops only once both limits hold or every remaining entry is
pending, in which case the cache may exceed its bounds; and (e) each
individual eviction deletes the entry, subtracts exactly its size,
drops its retained in-flight handle, and removes its fingerprint from
every session sequence. -/
theorem claim_C3_eviction (s : ServiceState) (hnd : KeysNodup s)
    (hq : QueuesNodup s) :
    (¬ overLimits s → enforceCacheLimits s = s) ∧
    (∀ k it, mapGet s.cache k = some it → it.status = Status.pending →
        mapGet (enforceCacheLimits s).cache k = some it) ∧
    (∀ k it, mapGet s.cache k = some it →
        mapGet (enforceCacheLimits s).cache k = none →
        it.status ≠ Status.pending) ∧
    (¬ overLimits (enforceCacheLimits s) ∨
      ∀ k it, mapGet (enforceCacheLimits s).cache k = some it →
        it.status = Status.pending) ∧
    (∀ k it, mapGet (evictStep s k it).cache k = none ∧
        (evictStep s k it).currentSize = s.currentSize - it.size ∧
        k ∉ (evictStep s k it).pendingPromises ∧
        ∀ p ∈ (evictStep s k it).sessionQueues, k ∉ p.2) := by
  refine ⟨enforce_noop s, fun k it hk hp => enforce_pending s hnd k it hk hp,
    ?_, enforce_final s hnd, ?_⟩
  · intro k it hk hnone hp
    rw [enforce_pending s hnd k it hk hp] at hnone
    cases hnone
  · intro k it
    refine ⟨mapGet_delete_self _ _, rfl, ?_, ?_⟩
    · intro hmem
      have := (List.mem_filter.mp hmem).2
      simp at this
    · intro p hp2
      rcases List.mem_map.mp hp2 with ⟨q, hq2, hqe⟩
      rw [← hqe]
      exact (hq q hq2).not_mem_erase

/-- Witness for C3 at `crossSessionState` (distinct cache keys,
duplicate-free queues). -/
theorem claim_C3_witness :
    KeysNodup crossSessionState ∧ QueuesNodup crossSessionState ∧
    ((¬ overLimits crossSessionState →
        enforceCacheLimits crossSessionState = crossSessionState) ∧
     (∀ k it, mapGet crossSessionState.cache k = some it →
        it.status = Status.pending →
        mapGet (enforceCacheLimits crossSessionState).cache k = some it) ∧
     (∀ k it, mapGet crossSessionState.cache k = some it →
        mapGet (enforceCacheLimits crossSessionState).cache k = none →
        it.status ≠ Status.pending) ∧
     (¬ overLimits (enforceCacheLimits crossSessionState) ∨
       ∀ k it, mapGet (enforceCacheLimits crossSessionState).cache k = some it →
         it.status = Status.pending) ∧
     (∀ k it, mapGet (evictStep crossSessionState k it).cache k = none ∧
        (evictStep crossSessionState k it).currentSize =
          crossSessionState.currentSize - it.size ∧
        k ∉ (evictStep crossSessionState k it).pendingPromises ∧
        ∀ p ∈ (evictStep crossSessionState k it).sessionQueues, k ∉ p.2)) :=
  ⟨by decide, by decide,
    claim_C3_eviction crossSessionState (by decide) (by decide)⟩

/-- A list of characters that ends a segment at the first `':'`
determines the segment: splitting at a `':'` separator is unambiguous
when the segment itself is colon-free. -/
theorem colon_split {a₁ a₂ r₁ r₂ : List Char}
    (h₁ : ':' ∉ a₁) (h₂ : ':' ∉ a₂)
    (h : a₁ ++ ':' :: r₁ = a₂ ++ ':' :: r₂) : a₁ = a₂ ∧ r₁ = r₂ := by
  induction a₁ generalizing a₂ with
  | nil =>
    cases a₂ with
    | nil => simpa using h
    | cons c t =>
      exfalso
      apply h₂
      have hc : c = ':' := by
        have := congrArg (fun l => l.head?) h
        simpa using this.symm
      simp [hc]
  | cons c t ih =>
    cases a₂ with
    | nil =>
      exfalso
      apply h₁
      have hc : c = ':' := by
        have := congrArg (fun l => l.head?) h
        simpa using this
      simp [hc]
    | cons c₂ t₂ =>
      simp only [List.cons_append, List.cons.injEq] at h
      obtain ⟨hc, ht⟩ := h
      have h₁' : ':' ∉ t := fun hm => h₁ (List.mem_cons_of_mem _ hm)
      have h₂' : ':' ∉ t₂ := fun hm => h₂ (List.mem_cons_of_mem _ hm)
      obtain ⟨he, hr⟩ := ih h₁' h₂' ht
      exact ⟨by simp [hc, he], hr⟩

/-- The character data underlying a generated key, with the `"::"`
separators exposed. -/
theorem generateKey_data (s l v t : String) :
    (generateKey s l v t).data =
      s.data ++ ':' :: ':' ::
        (l.data ++ ':' :: ':' :: (v.data ++ ':' :: ':' :: t.data)) := by
  show (s.data ++ [':', ':'] ++ l.data ++ [':', ':'] ++ v.data ++ [':', ':'] ++ t.data) = _
  simp

section RequestHelpers

theorem setSessionSettings_cache (s : ServiceState) (sid a b c : String) :
    (setSessionSettings s sid a b c).1.cache = s.cache := by
  unfold setSessionSettings
  by_cases hc : (!s.configured) = true
  · rw [if_pos hc]
  · rw [if_neg hc]

theorem preloadWithSettings_noop (s : ServiceState) (a b c d sid : String)
    (now : Nat)
    (h : (mapGet s.cache (generateKey a b c d)).isSome = true) :
    preloadWithSettings s a b c d sid now = (s, 0) := by
  unfold preloadWithSettings
  rw [if_pos h]

theorem requestTTSEntry_calls_zero (s : ServiceState) (a b c d sid : String)
    (now : Nat)
    (h : (mapGet s.cache (generateKey a b c d)).isSome = true) :
    (requestTTSEntry s a b c d sid now).calls = 0 := by
  have hc1 : (setSessionSettings s sid a b c).1.cache = s.cache :=
    setSessionSettings_cache s sid a b c
  unfold requestTTSEntry
  by_cases hc : (!s.configured) = true
  · rw [if_pos hc]
  · rw [if_neg hc]
    dsimp only
    by_cases hqq : (mapGet (setSessionSettings s sid a b c).1.sessionQueues
        sid).isSome = true
    · simp only [if_pos hqq]
      split
      · rfl
      · show (preloadWithSettings (setSessionSettings s sid a b c).1
            a b c d sid now).2 = 0
        rw [preloadWithSettings_noop _ a b c d sid now (by rw [hc1]; exact h)]
    · simp only [if_neg hqq]
      split
      · rfl
      · show (preloadWithSettings
            { (setSessionSettings s sid a b c).1 with
                sessionQueues :=
                  mapSet (setSessionSettings s sid a b c).1.sessionQueues sid [] }
            a b c d sid now).2 = 0
        rw [preloadWithSettings_noop _ a b c d sid now (by
          show (mapGet (setSessionSettings s sid a b c).1.cache
            (generateKey a b c d)).isSome = true
          rw [hc1]
          exact h)]

theorem settleItem_fail (out : GenOutcome) (now : Nat) (hf : genFails out) :
    settleItem out now = ⟨none, now, 0, Status.error⟩ := by
  rcases hf with h | h | h <;> rw [h] <;> rfl

theorem withTimeout_fail (out : GenOutcome) (hf : genFails out) :
    withTimeout out = none := by
  rcases hf with h | h | h <;> rw [h] <;> rfl

end RequestHelpers

/-- C4: when the fingerprint of `(service, language, voice, text)` is
already present in the cache in any status, `preloadWithSettings` is a
no-op that does not invoke the generation function, the synchronous
prefix of `requestTTS` invokes it zero times, and the resolution phase
of `requestTTS` invokes it zero times — so a repeated request while an
entry is cached or in flight adds no generation call. -/
theorem claim_C4_dedup (s s' : ServiceState)
    (service language voice text sessionId : String)
    (pv : Option String) (out : GenOutcome) (now now' : Nat)
    (h : (mapGet s.cache (generateKey service language voice text)).isSome = true)
    (h' : (mapGet s'.cache (generateKey service language voice text)).isSome = true) :
    preloadWithSettings s service language voice text sessionId now = (s, 0) ∧
    (requestTTSEntry s service language voice text sessionId now).calls = 0 ∧
    (requestTTSResolve s' (generateKey service language voice text)
        pv out now').calls = 0 := by
  refine ⟨preloadWithSettings_noop s service language voice text sessionId now h,
    requestTTSEntry_calls_zero s service language voice text sessionId now h, ?_⟩
  obtain ⟨item, hitem⟩ := Option.isSome_iff_exists.mp h'
  unfold requestTTSResolve
  rw [hitem]
  dsimp only
  split
  · rfl
  · rfl

/-- Witness for C4 at `cachedKeyState`, whose cache holds a pending
entry for the fingerprint of `("a", "l", "v", "t")`. -/
theorem claim_C4_witness :
    (mapGet cachedKeyState.cache (generateKey "a" "l" "v" "t")).isSome = true ∧
    (preloadWithSettings cachedKeyState "a" "l" "v" "t" "s" 9 = (cachedKeyState, 0) ∧
     (requestTTSEntry cachedKeyState "a" "l" "v" "t" "s" 9).calls = 0 ∧
     (requestTTSResolve cachedKeyState (generateKey "a" "l" "v" "t")
        none GenOutcome.reject 9).calls = 0) :=
  ⟨by decide,
    claim_C4_dedup cachedKeyState cachedKeyState "a" "l" "v" "t" "s"
      none GenOutcome.reject 9 9 (by decide) (by decide)⟩

/-- C5 counterexample: the fingerprint is not injective on all tuples —
the distinct tuples `("a:", "b", "v", "t")` and `("a", ":b", "v", "t")`
share the fingerprint `"a:::b::v::t"`, because a `':'` inside a field
merges with the `"::"` separator. -/
theorem claim_C5_counterexample :
    generateKey "a:" "b" "v" "t" = generateKey "a" ":b" "v" "t" ∧
    ¬(("a:", "b", "v", "t") = ("a", ":b", "v", "t")) := by
  decide

/-- C5 amended: the fingerprint is a pure function of the tuple
(determinism is definitional), and it is injective on tuples whose
`service`, `language` and `voice` fields contain no `':'` character
(the `text` field, in last position, is unrestricted). -/
theorem claim_C5_fingerprint_inj (s₁ l₁ v₁ t₁ s₂ l₂ v₂ t₂ : String)
    (hs₁ : ':' ∉ s₁.data) (hl₁ : ':' ∉ l₁.data) (hv₁ : ':' ∉ v₁.data)
    (hs₂ : ':' ∉ s₂.data) (hl₂ : ':' ∉ l₂.data) (hv₂ : ':' ∉ v₂.data)
    (h : generateKey s₁ l₁ v₁ t₁ = generateKey s₂ l₂ v₂ t₂) :
    s₁ = s₂ ∧ l₁ = l₂ ∧ v₁ = v₂ ∧ t₁ = t₂ := by
  have hd := congrArg String.data h
  rw [generateKey_data, generateKey_data] at hd
  obtain ⟨he1, hr1⟩ := colon_split hs₁ hs₂ hd
  injection hr1 with hx1 hr1
  obtain ⟨he2, hr2⟩ := colon_split hl₁ hl₂ hr1
  injection hr2 with hx2 hr2
  obtain ⟨he3, hr3⟩ := colon_split hv₁ hv₂ hr2
  injection hr3 with hx3 hr3
  exact ⟨String.ext he1, String.ext he2, String.ext he3, String.ext hr3⟩

/-- Witness for C5 at a concrete colon-free tuple. -/
theorem claim_C5_witness :
    (':' ∉ ("aws" : String).data) ∧ (':' ∉ ("en" : String).data) ∧
    (':' ∉ ("f" : String).data) ∧
    (("aws" : String) = "aws" ∧ ("en" : String) = "en" ∧
      ("f" : String) = "f" ∧ ("hi" : String) = "hi") :=
  ⟨by decide, by decide, by decide,
    claim_C5_fingerprint_inj "aws" "en" "f" "hi" "aws" "en" "f" "hi"
      (by decide) (by decide) (by decide) (by decide) (by decide) (by decide) rfl⟩

/-- C6: `requestTTS` never surfaces an exception.  Before
configuration it returns `null` immediately; and whenever the
generation call backing the request fails (rejects, resolves `null`, or
times out) — so the retained promise settles with `null` and the entry
is not completed-with-result — the resolution phase returns `null`
rather than propagating anything. -/
theorem claim_C6_no_throw (s s' : ServiceState) (key : String)
    (service language voice text sessionId : String)
    (pv : Option String) (out : GenOutcome) (now now' : Nat)
    (hu : s.configured = false)
    (hf : genFails out) (hpv : pv = none)
    (hni : ((mapGet s'.cache key).map
        (fun it => it.status == Status.completed && it.result.isSome)).getD
        false = false) :
    ((requestTTSEntry s service language voice text sessionId now).earlyNull = true ∧
     (requestTTSEntry s service language voice text sessionId now).state = s) ∧
    (requestTTSResolve s' key pv out now').result = none := by
  constructor
  · unfold requestTTSEntry
    rw [if_pos (by rw [hu]; rfl)]
    exact ⟨rfl, rfl⟩
  · unfold requestTTSResolve
    split
    · rename_i item hitem
      rw [hitem] at hni
      have hni' : (item.status == Status.completed && item.result.isSome) = false := hni
      rw [if_neg (by rw [hni']; exact Bool.false_ne_true)]
      exact hpv
    · rw [withTimeout_fail out hf]

/-- Witness for C6: the fresh state is unconfigured, and at
`orphanQueueState` a rejecting generation call resolves to `null`. -/
theorem claim_C6_witness :
    freshState.configured = false ∧ genFails GenOutcome.reject ∧
    ((none : Option String) = none) ∧
    ((mapGet orphanQueueState.cache (generateKey "a" "l" "v" "t")).map
        (fun it => it.status == Status.completed && it.result.isSome)).getD
        false = false ∧
    (((requestTTSEntry freshState "a" "l" "v" "t" "s" 3).earlyNull = true ∧
      (requestTTSEntry freshState "a" "l" "v" "t" "s" 3).state = freshState) ∧
     (requestTTSResolve orphanQueueState (generateKey "a" "l" "v" "t")
        none GenOutcome.reject 3).result = none) :=
  ⟨rfl, by decide, rfl, by decide,
    claim_C6_no_throw freshState orphanQueueState (generateKey "a" "l" "v" "t")
      "a" "l" "v" "t" "s" none GenOutcome.reject 3 3 rfl (by decide) rfl (by decide)⟩

/-- C7 counterexample: on the direct-call fallback of `requestTTS` (the
fingerprint is in the session queue but absent from the cache), a
failing generation call returns `null` and stores nothing — afterwards
the cache holds no entry at all for the fingerprint, in particular no
`Failed` entry, contradicting "this holds for every failure path of
preload and request". -/
theorem claim_C7_counterexample :
    genFails GenOutcome.reject ∧
    mapGet orphanQueueState.sessionQueues "s" = some [generateKey "a" "l" "v" "t"] ∧
    (requestTTSResolve orphanQueueState (generateKey "a" "l" "v" "t")
        none GenOutcome.reject 5).result = none ∧
    mapGet (requestTTSResolve orphanQueueState (generateKey "a" "l" "v" "t")
        none GenOutcome.reject 5).state.cache (generateKey "a" "l" "v" "t") = none := by
  decide

/-- C7 amended: when a preload-started fetch settles with a failure
(rejection, `null` result, or timeout) on a pending entry, and the
cache is within its limits (so the fresh terminal entry is not itself
evicted), the settlement stores an `error` entry of size `0` for the
fingerprint; afterwards `hasCompletedItem` and `hasPending` are both
`false` for that tuple, and a further preload of the same tuple is a
no-op making no generation call (no automatic retry).  The direct-call
fallback of `requestTTS`, by contrast, stores nothing on failure. -/
theorem claim_C7_failed_entry (s : ServiceState)
    (service language voice text sessionId : String)
    (out : GenOutcome) (now now2 : Nat) (it : CacheItem)
    (hf : genFails out)
    (hit : mapGet s.cache (generateKey service language voice text) = some it)
    (_hpend : it.status = Status.pending) (hsz0 : it.size = 0)
    (hcnt : s.cache.length ≤ s.maxItems) (hsz : s.currentSize ≤ s.maxSize) :
    mapGet (applySettle s (generateKey service language voice text) out now).cache
        (generateKey service language voice text) =
      some ⟨none, now, 0, Status.error⟩ ∧
    (hasCompletedItem (applySettle s (generateKey service language voice text) out now)
        service language voice text).1 = false ∧
    (hasPending (applySettle s (generateKey service language voice text) out now)
        service language voice text).1 = false ∧
    preloadWithSettings (applySettle s (generateKey service language voice text) out now)
        service language voice text sessionId now2 =
      (applySettle s (generateKey service language voice text) out now, 0) := by
  have herr : settleItem out now = ⟨none, now, 0, Status.error⟩ :=
    settleItem_fail out now hf
  have hput : putRaw s (generateKey service language voice text)
      (settleItem out now) =
      { s with
          cache := mapSet s.cache (generateKey service language voice text)
            (settleItem out now)
          currentSize := s.currentSize - it.size + (settleItem out now).size } := by
    unfold putRaw
    rw [hit]
  have hnov : ¬ overLimits (putRaw s (generateKey service language voice text)
      (settleItem out now)) := by
    rw [hput]
    unfold overLimits
    push_neg
    constructor
    · show (mapSet s.cache (generateKey service language voice text)
          (settleItem out now)).length ≤ s.maxItems
      rw [length_mapSet_present _ _ _ (by rw [hit]; rfl)]
      exact hcnt
    · show s.currentSize - it.size + (settleItem out now).size ≤ s.maxSize
      rw [hsz0, herr]
      simpa using hsz
  have happ : applySettle s (generateKey service language voice text) out now =
      { s with
          cache := mapSet s.cache (generateKey service language voice text)
            (settleItem out now)
          currentSize := s.currentSize - it.size + (settleItem out now).size } := by
    show setCacheItem s (generateKey service language voice text)
        (settleItem out now) = _
    unfold setCacheItem
    rw [enforce_noop _ hnov, hput]
  have hget : mapGet (applySettle s (generateKey service language voice text)
      out now).cache (generateKey service language voice text) =
      some ⟨none, now, 0, Status.error⟩ := by
    rw [happ]
    show mapGet (mapSet s.cache (generateKey service language voice text)
        (settleItem out now)) (generateKey service language voice text) =
      some ⟨none, now, 0, Status.error⟩
    rw [mapGet_set_self, herr]
  refine ⟨hget, ?_, ?_, ?_⟩
  · unfold hasCompletedItem
    by_cases hcfg : (!(applySettle s (generateKey service language voice text)
        out now).configured) = true
    · rw [if_pos hcfg]
    · rw [if_neg hcfg, hget]
      rfl
  · unfold hasPending
    by_cases hcfg : (!(applySettle s (generateKey service language voice text)
        out now).configured) = true
    · rw [if_pos hcfg]
    · rw [if_neg hcfg, hget]
      rfl
  · exact preloadWithSettings_noop _ service language voice text sessionId now2
      (by rw [hget]; rfl)

/-- Witness for C7 at `cachedKeyState`: a pending entry for the
fingerprint of `("a", "l", "v", "t")` settling with a rejection. -/
theorem claim_C7_witness :
    genFails GenOutcome.reject ∧
    mapGet cachedKeyState.cache (generateKey "a" "l" "v" "t") = some (pendingEntry 0) ∧
    (pendingEntry 0).status = Status.pending ∧ (pendingEntry 0).size = 0 ∧
    cachedKeyState.cache.length ≤ cachedKeyState.maxItems ∧
    cachedKeyState.currentSize ≤ cachedKeyState.maxSize ∧
    (mapGet (applySettle cachedKeyState (generateKey "a" "l" "v" "t")
        GenOutcome.reject 7).cache (generateKey "a" "l" "v" "t") =
      some ⟨none, 7, 0, Status.error⟩ ∧
     (hasCompletedItem (applySettle cachedKeyState (generateKey "a" "l" "v" "t")
        GenOutcome.reject 7) "a" "l" "v" "t").1 = false ∧
     (hasPending (applySettle cachedKeyState (generateKey "a" "l" "v" "t")
        GenOutcome.reject 7) "a" "l" "v" "t").1 = false ∧
     preloadWithSettings (applySettle cachedKeyState (generateKey "a" "l" "v" "t")
        GenOutcome.reject 7) "a" "l" "v" "t" "s" 8 =
      (applySettle cachedKeyState (generateKey "a" "l" "v" "t")
        GenOutcome.reject 7, 0)) :=
  ⟨by decide, by decide, rfl, rfl, by decide, by decide,
    claim_C7_failed_entry cachedKeyState "a" "l" "v" "t" "s"
      GenOutcome.reject 7 8 (pendingEntry 0) (by decide) (by decide) rfl rfl
      (by decide) (by decide)⟩

/-- C8 counterexample: `getCacheStats` performs no configuration check.
In the unconfigured state reached by configuring with `maxItems = 7`
and then resetting, it logs no warning and returns the live snapshot
(still showing `maxItems = 7`), not a neutral/empty value. -/
theorem claim_C8_counterexample :
    staleStatsState.configured = false ∧
    (getCacheStats staleStatsState).2 = 0 ∧
    (getCacheStats staleStatsState).1.maxItems = 7 := by
  decide

/-- C8 amended: before configuration, `hasCompletedItem`, `hasPending`,
`setSessionSettings`, `preloadTTS` and `requestTTS` each log one
warning, change no state, make no generation call and return the
type-appropriate neutral value — while `getCacheStats` logs nothing and
returns the current snapshot unchecked. -/
theorem claim_C8_unconfigured_noop (s : ServiceState)
    (service language voice text sessionId : String) (now : Nat)
    (h : s.configured = false) :
    hasCompletedItem s service language voice text = (false, 1) ∧
    hasPending s service language voice text = (false, 1) ∧
    setSessionSettings s sessionId service language voice = (s, 1) ∧
    preloadTTS s text sessionId now = (s, 1, 0) ∧
    requestTTSEntry s service language voice text sessionId now =
      ⟨s, true, 1, 0⟩ ∧
    getCacheStats s =
      (⟨s.cache.length, s.maxItems, s.currentSize, s.maxSize⟩, 0) := by
  have hb : (!s.configured) = true := by rw [h]; rfl
  refine ⟨?_, ?_, ?_, ?_, ?_, rfl⟩
  · unfold hasCompletedItem
    rw [if_pos hb]
  · unfold hasPending
    rw [if_pos hb]
  · unfold setSessionSettings
    rw [if_pos hb]
  · unfold preloadTTS
    rw [if_pos hb]
  · unfold requestTTSEntry
    rw [if_pos hb]

/-- Witness for C8 at `staleStatsState` (unconfigured). -/
theorem claim_C8_witness :
    staleStatsState.configured = false ∧
    (hasCompletedItem staleStatsState "a" "l" "v" "t" = (false, 1) ∧
     hasPending staleStatsState "a" "l" "v" "t" = (false, 1) ∧
     setSessionSettings staleStatsState "s" "a" "l" "v" = (staleStatsState, 1) ∧
     preloadTTS staleStatsState "t" "s" 4 = (staleStatsState, 1, 0) ∧
     requestTTSEntry staleStatsState "a" "l" "v" "t" "s" 4 =
       ⟨staleStatsState, true, 1, 0⟩ ∧
     getCacheStats staleStatsState =
       (⟨staleStatsState.cache.length, staleStatsState.maxItems,
          staleStatsState.currentSize, staleStatsState.maxSize⟩, 0)) :=
  ⟨by decide, claim_C8_unconfigured_noop staleStatsState "a" "l" "v" "t" "s" 4
    (by decide)⟩

/-- C9: `reset` (the source's `uninitialize`) clears the cache, the
aggregate size, the session queues, the session settings and the
pending-promise handles; it is idempotent; and the stats snapshot after
a reset reports zero entries and zero size. -/
theorem claim_C9_reset (s : ServiceState) :
    (reset s).cache = [] ∧ (reset s).currentSize = 0 ∧
    (reset s).sessionQueues = [] ∧ (reset s).sessionSettings = [] ∧
    (reset s).pendingPromises = [] ∧
    reset (reset s) = reset s ∧
    (getCacheStats (reset s)).1.currentItems = 0 ∧
    (getCacheStats (reset s)).1.currentSize = 0 :=
  ⟨rfl, rfl, rfl, rfl, rfl, rfl, rfl, rfl⟩

/-- C10: re-configuring an already-configured service replaces exactly
the configuration parameters (generation function handle, timeout,
maxSize, maxItems) and keeps the singleton instance; the cache, the
aggregate size, the session queues, the session settings and the
pending-promise handles all survive unchanged. -/
theorem claim_C10_reconfigure (s : ServiceState) (fnId : Nat) (mx : Int)
    (mi tm : Nat) (_h1 : s.configured = true) (h2 : s.hasInstance = true) :
    (configure s fnId mx mi tm).cache = s.cache ∧
    (configure s fnId mx mi tm).currentSize = s.currentSize ∧
    (configure s fnId mx mi tm).sessionQueues = s.sessionQueues ∧
    (configure s fnId mx mi tm).sessionSettings = s.sessionSettings ∧
    (configure s fnId mx mi tm).pendingPromises = s.pendingPromises ∧
    (configure s fnId mx mi tm).hasInstance = s.hasInstance ∧
    (configure s fnId mx mi tm).ttsFnId = fnId ∧
    (configure s fnId mx mi tm).timeoutMs = tm ∧
    (configure s fnId mx mi tm).maxSize = mx ∧
    (configure s fnId mx mi tm).maxItems = mi ∧
    (configure s fnId mx mi tm).configured = true := by
  refine ⟨rfl, rfl, rfl, rfl, rfl, ?_, rfl, rfl, rfl, rfl, rfl⟩
  show (if !s.hasInstance then true else s.hasInstance) = s.hasInstance
  rw [h2]
  rfl

/-- Witness for C10 at a configured state. -/
theorem claim_C10_witness :
    (configure freshState 1 1000 3 2000).configured = true ∧
    (configure freshState 1 1000 3 2000).hasInstance = true ∧
    ((configure (configure freshState 1 1000 3 2000) 2 500 9 100).cache =
        (configure freshState 1 1000 3 2000).cache ∧
     (configure (configure freshState 1 1000 3 2000) 2 500 9 100).currentSize =
        (configure freshState 1 1000 3 2000).currentSize ∧
     (configure (configure freshState 1 1000 3 2000) 2 500 9 100).sessionQueues =
        (configure freshState 1 1000 3 2000).sessionQueues ∧
     (configure (configure freshState 1 1000 3 2000) 2 500 9 100).sessionSettings =
        (configure freshState 1 1000 3 2000).sessionSettings ∧
     (configure (configure freshState 1 1000 3 2000) 2 500 9 100).pendingPromises =
        (configure freshState 1 1000 3 2000).pendingPromises ∧
     (configure (configure freshState 1 1000 3 2000) 2 500 9 100).hasInstance =
        (configure freshState 1 1000 3 2000).hasInstance ∧
     (configure (configure freshState 1 1000 3 2000) 2 500 9 100).ttsFnId = 2 ∧
     (configure (configure freshState 1 1000 3 2000) 2 500 9 100).timeoutMs = 100 ∧
     (configure (configure freshState 1 1000 3 2000) 2 500 9 100).maxSize = 500 ∧
     (configure (configure freshState 1 1000 3 2000) 2 500 9 100).maxItems = 9 ∧
     (configure (configure freshState 1 1000 3 2000) 2 500 9 100).configured = true) :=
  ⟨rfl, rfl,
    claim_C10_reconfigure (configure freshState 1 1000 3 2000) 2 500 9 100 rfl rfl⟩

end TTSCache
